import Mathlib

/-!
Verification development for the obelisk client
(src/include/bitcoin/client/obelisk_client.hpp).

The repository ships only the class declaration; the member function
bodies live in a source file that is not part of the repository
snapshot.  Declarations (handler typedefs, the per-shape pending
handler maps, method signatures, data members) are embedded directly
from the header.  Behaviour (enqueue, dispatch, the timeout sweep,
wait/monitor polling, feed subscriptions, connect) is modelled from
the specification, as marked on each definition.
-/

/-! ## Declarations embedded from the header -/

/-- The fetch handler typedefs of `obelisk_client`
(header lines 64-72), in declaration order. -/
def fetch_handler_typedefs : List String :=
  [ "result_handler"
  , "height_handler"
  , "transaction_index_handler"
  , "block_handler"
  , "block_header_handler"
  , "transaction_handler"
  , "points_value_handler"
  , "history_handler"
  , "stealth_handler" ]

/-- The request-id-keyed handler map typedefs of `obelisk_client`
(header lines 77-85), each a `std::unordered_map<uint32_t, _>`,
in declaration order. -/
def handler_map_typedefs : List String :=
  [ "result_handler_map"
  , "height_handler_map"
  , "transaction_index_handler_map"
  , "block_handler_map"
  , "block_header_handler_map"
  , "transaction_handler_map"
  , "history_handler_map"
  , "stealth_handler_map"
  , "update_handler_map" ]

/-- The pending handler table data members of `obelisk_client`
(header lines 212-220), in declaration order.  `command_handlers_`
(line 211) is the command registry, not a request-id-keyed pending
table, so it does not belong to this list. -/
def handler_map_members : List String :=
  [ "result_handlers_"
  , "height_handlers_"
  , "transaction_index_handlers_"
  , "block_handlers_"
  , "block_header_handlers_"
  , "transaction_handlers_"
  , "history_handlers_"
  , "stealth_handlers_"
  , "update_handlers_" ]

/-- Follows the spec's words (section 3, Data Model): the result shapes
the spec says the pending handlers are grouped by, one table each. -/
def spec_listed_result_shapes : List String :=
  [ "plain result"
  , "height"
  , "tx-index"
  , "block"
  , "header"
  , "transaction"
  , "points-value"
  , "history list"
  , "stealth list"
  , "generic update" ]

/-- Return types of the four subscriber entry points
(header lines 165-175). -/
def subscriber_return_types : List (String × String) :=
  [ ("subscribe_address", "void")
  , ("subscribe_stealth", "void")
  , ("subscribe_block", "bool")
  , ("subscribe_transaction", "bool") ]

/-- Handler parameter types of the subscriber entry points
(header lines 165-175). -/
def subscriber_handler_types : List (String × String) :=
  [ ("subscribe_address", "update_handler")
  , ("subscribe_stealth", "update_handler")
  , ("subscribe_block", "block_update_handler")
  , ("subscribe_transaction", "transaction_update_handler") ]

/-- Handler parameter type of `blockchain_fetch_unspent_outputs`
(header lines 158-160). -/
def unspent_outputs_handler_type : String := "points_value_handler"

/-! ## Result shapes and values -/

/-- The result shapes for which the header declares a pending handler
table (one constructor per member of `handler_map_members`). -/
inductive Shape where
  | result
  | height
  | transaction_index
  | block
  | block_header
  | transaction
  | history
  | stealth
  | update
deriving DecidableEq, Repr, Fintype

/-- The nine shapes in the header's member declaration order. -/
def allShapes : List Shape :=
  [ .result, .height, .transaction_index, .block, .block_header
  , .transaction, .history, .stealth, .update ]

/-- Values delivered to handlers.  Domain payloads (blocks, headers,
transactions, the count-prefixed lists) are opaque to the core and
modelled as their byte strings. -/
inductive Value where
  | unitV
  | natV (n : Nat)
  | pairV (a b : Nat)
  | bytesV (bs : List Nat)
deriving DecidableEq, Repr

/-- The default value a handler of the given shape receives together
with a non-success code. -/
def Shape.defaultValue : Shape → Value
  | .result => .unitV
  | .height => .natV 0
  | .transaction_index => .pairV 0 0
  | .block => .bytesV []
  | .block_header => .bytesV []
  | .transaction => .bytesV []
  | .history => .bytesV []
  | .stealth => .bytesV []
  | .update => .bytesV []

/-! ## Association lists with `std::unordered_map` semantics

Each pending table is an `std::unordered_map<uint32_t, handler>`.
We model a table as a list of `(request id, handler tag)` pairs in
which a key occurs at most once; handler identity is a `Nat` tag. -/

/-- First value bound to `k`, as `unordered_map::find`. -/
def mapLookup (k : Nat) : List (Nat × Nat) → Option Nat
  | [] => none
  | e :: rest => if e.1 = k then some e.2 else mapLookup k rest

/-- Bind `k` to `v`: replace the existing binding in place if `k` is
present, append otherwise — as assignment through
`unordered_map::operator[]`. -/
def mapInsert (k v : Nat) : List (Nat × Nat) → List (Nat × Nat)
  | [] => [(k, v)]
  | e :: rest => if e.1 = k then (k, v) :: rest else e :: mapInsert k v rest

/-- Remove the binding of `k`, as `unordered_map::erase`. -/
def mapErase (k : Nat) : List (Nat × Nat) → List (Nat × Nat)
  | [] => []
  | e :: rest => if e.1 = k then rest else e :: mapErase k rest

/-- The keys of a table. -/
def mapKeys (l : List (Nat × Nat)) : List Nat := l.map (·.1)

/-! ## Pending handler state -/

/-- The nine pending handler tables, mirroring the data members of
`obelisk_client` (header lines 212-220). -/
structure PendingTables where
  result_handlers_ : List (Nat × Nat)
  height_handlers_ : List (Nat × Nat)
  transaction_index_handlers_ : List (Nat × Nat)
  block_handlers_ : List (Nat × Nat)
  block_header_handlers_ : List (Nat × Nat)
  transaction_handlers_ : List (Nat × Nat)
  history_handlers_ : List (Nat × Nat)
  stealth_handlers_ : List (Nat × Nat)
  update_handlers_ : List (Nat × Nat)
deriving DecidableEq, Repr

/-- The table of a given shape. -/
def PendingTables.get (t : PendingTables) : Shape → List (Nat × Nat)
  | .result => t.result_handlers_
  | .height => t.height_handlers_
  | .transaction_index => t.transaction_index_handlers_
  | .block => t.block_handlers_
  | .block_header => t.block_header_handlers_
  | .transaction => t.transaction_handlers_
  | .history => t.history_handlers_
  | .stealth => t.stealth_handlers_
  | .update => t.update_handlers_

/-- Replace the table of a given shape. -/
def PendingTables.set (t : PendingTables) : Shape → List (Nat × Nat) → PendingTables
  | .result, l => { t with result_handlers_ := l }
  | .height, l => { t with height_handlers_ := l }
  | .transaction_index, l => { t with transaction_index_handlers_ := l }
  | .block, l => { t with block_handlers_ := l }
  | .block_header, l => { t with block_header_handlers_ := l }
  | .transaction, l => { t with transaction_handlers_ := l }
  | .history, l => { t with history_handlers_ := l }
  | .stealth, l => { t with stealth_handlers_ := l }
  | .update, l => { t with update_handlers_ := l }

/-- All nine tables empty. -/
def emptyTables : PendingTables := ⟨[], [], [], [], [], [], [], [], []⟩

/-- Correlator state: the `uint32_t last_request_index_` counter
(header line 210) and the nine pending tables. -/
structure ClientState where
  last_request_index_ : Nat
  tables : PendingTables
deriving DecidableEq, Repr

/-- State at construction: counter zero, no pending requests. -/
def initialState : ClientState := ⟨0, emptyTables⟩

/-- 2^32, the modulus of the `uint32_t` request id counter. -/
def idModulus : Nat := 4294967296

/-! ## Correlator operations

The bodies of `obelisk_client`'s member functions are not part of the
repository snapshot (only the header is), so from here on the
operations are modelled from the specification, against the types the
header declares. -/

/-- Modelled from the spec: the id allocated by the next enqueue —
the `uint32_t last_request_index_` counter advances by one and may
wrap (section 3: "unsigned 32-bit counter, monotonically increasing
within a session, may wrap"). -/
def next_request_index (s : ClientState) : Nat :=
  (s.last_request_index_ + 1) % idModulus

/-- Modelled from the spec (section 4.3, `enqueue`, for the missing
member function bodies behind the fetch/broadcast/subscribe entry
points): allocate the next request id and store `(id -> handler)` in
the table matching the handler's result shape.  Frame building and
`send_request` carry no correlator state and are omitted. -/
def enqueue (s : ClientState) (sh : Shape) (tag : Nat) : ClientState :=
  { last_request_index_ := next_request_index s
    tables := s.tables.set sh
      (mapInsert (next_request_index s) tag (s.tables.get sh)) }

/-- Modelled from the spec (section 4.2): the static command registry
built by the missing `attach_handlers`, mapping each wire command to
the result shape of its reply.  The registry rows for the RPCs the
header exposes; `blockchain.fetch_last_height` is named verbatim in
the spec's test scenario, the remaining command strings follow the
header's method names. -/
def command_registry : List (String × Shape) :=
  [ ("transaction_pool.broadcast", .result)
  , ("transaction_pool.validate2", .result)
  , ("transaction_pool.fetch_transaction", .transaction)
  , ("transaction_pool.fetch_transaction2", .transaction)
  , ("blockchain.broadcast", .result)
  , ("blockchain.validate", .result)
  , ("blockchain.fetch_transaction", .transaction)
  , ("blockchain.fetch_transaction2", .transaction)
  , ("blockchain.fetch_last_height", .height)
  , ("blockchain.fetch_block", .block)
  , ("blockchain.fetch_block_header", .block_header)
  , ("blockchain.fetch_transaction_index", .transaction_index)
  , ("blockchain.fetch_stealth2", .stealth)
  , ("blockchain.fetch_history4", .history)
  , ("address.subscribe2", .update)
  , ("address.subscribe_stealth", .update) ]

/-- Shape of a command's reply, `none` for an unknown command. -/
def commandShape (c : String) : Option Shape :=
  (command_registry.find? (fun p => p.1 = c)).map (·.2)

/-- One wire frame: command name, 4-byte request id, payload bytes
(spec section 6, and the `command_handler` typedef of the header). -/
structure Frame where
  command : String
  id : Nat
  payload : List Nat
deriving DecidableEq, Repr

/-- A 32-bit little-endian integer read off the front of a payload —
the fixed-width leading status code of a reply (spec section 6). -/
def readUint32 : List Nat → Option (Nat × List Nat)
  | b0 :: b1 :: b2 :: b3 :: rest =>
      some (b0 % 256 + b1 % 256 * 256 + b2 % 256 * 65536 +
        b3 % 256 * 16777216, rest)
  | _ => none

/-- Modelled from the spec (sections 4.3 and 6): the shape-specific
decode of a zero-status reply body.  Pure result: empty body; height:
one integer; transaction index: two integers; domain objects and the
count-prefixed lists go through the opaque domain codecs and are kept
as their byte strings; the generic update shape is acknowledgement
only (the immediate path of the missing `handle_immediate`). -/
def decodeBody : Shape → List Nat → Option Value
  | .result, _ => some .unitV
  | .height, bs => (readUint32 bs).map (fun p => .natV p.1)
  | .transaction_index, bs =>
      match readUint32 bs with
      | none => none
      | some (a, rest) => (readUint32 rest).map (fun p => .pairV a p.1)
  | .block, bs => some (.bytesV bs)
  | .block_header, bs => some (.bytesV bs)
  | .transaction, bs => some (.bytesV bs)
  | .history, bs => some (.bytesV bs)
  | .stealth, bs => some (.bytesV bs)
  | .update, _ => some .unitV

/-- One handler invocation: the handler's tag, its table's shape, the
error code it receives (0 is success) and the value it receives. -/
structure Invocation where
  tag : Nat
  shape : Shape
  ec : Nat
  value : Value
deriving DecidableEq, Repr

/-- What dispatching one reply frame did. -/
inductive DispatchResult where
  | invoked (inv : Invocation)
  | droppedLate
  | protocolError
deriving DecidableEq, Repr

/-- Modelled from the spec (section 4.3, `dispatch`): resolve the
command through the registry (unknown command: protocol error, no
handler); look up the id in the matching pending table (absent: late
or duplicate reply, dropped silently); read the leading status code
(malformed: protocol error, no handler); non-zero status delivers the
server code with the shape's default value, zero status delivers
success with the shape-specific decode of the remainder; the entry is
removed and the handler invoked exactly once. -/
def dispatch (s : ClientState) (f : Frame) : ClientState × DispatchResult :=
  match commandShape f.command with
  | none => (s, .protocolError)
  | some sh =>
    match mapLookup f.id (s.tables.get sh) with
    | none => (s, .droppedLate)
    | some tag =>
      match readUint32 f.payload with
      | none => (s, .protocolError)
      | some (status, rest) =>
        if status = 0 then
          match decodeBody sh rest with
          | none => (s, .protocolError)
          | some v =>
            ({ s with tables := s.tables.set sh (mapErase f.id (s.tables.get sh)) },
              .invoked ⟨tag, sh, 0, v⟩)
        else
          ({ s with tables := s.tables.set sh (mapErase f.id (s.tables.get sh)) },
            .invoked ⟨tag, sh, status, sh.defaultValue⟩)

/-- Modelled from the spec (section 4.3, `requests_outstanding`):
true iff any pending table is non-empty. -/
def requests_outstanding (s : ClientState) : Bool :=
  allShapes.any (fun sh => !(s.tables.get sh).isEmpty)

/-- Modelled from the spec (section 4.3,
`clear_outstanding_requests`): the invocations the sweep performs —
every remaining handler of every pending table once, with the given
error code and its shape's default value, tables in member order. -/
def sweepInvocations (s : ClientState) (ec : Nat) : List Invocation :=
  (allShapes.map (fun sh =>
    (s.tables.get sh).map (fun e => Invocation.mk e.2 sh ec sh.defaultValue))).flatten

/-- Modelled from the spec (section 4.3,
`clear_outstanding_requests`): invoke every remaining handler once
with `(ec, default value)` and clear all tables. -/
def clear_outstanding_requests (s : ClientState) (ec : Nat) :
    ClientState × List Invocation :=
  ({ s with tables := emptyTables }, sweepInvocations s ec)

/-- Total number of pending entries across all nine tables. -/
def totalPending (s : ClientState) : Nat :=
  (allShapes.map (fun sh => (s.tables.get sh).length)).sum

/-- Number of invocations carrying handler tag `t`. -/
def countTag (t : Nat) (invs : List Invocation) : Nat :=
  invs.countP (fun i => i.tag == t)

/-- Number of pending entries carrying handler tag `t`. -/
def countPendingTag (t : Nat) (s : ClientState) : Nat :=
  (allShapes.map (fun sh => (s.tables.get sh).countP (fun e => e.2 == t))).sum

/-! ## Connect

`obelisk_client` stores the constructor's `retries` argument in the
`int32_t retries_` member (header lines 88 and 207); the spec's
session-state-machine section says the `retries` setting "governs
connection-attempt retries".  Its Transport Session section instead
says connect "never retries internally"; the model follows the
`retries_` member and the setting's stated role, and the two readings
are separated in the claim theorems below. -/

/-- Modelled from the spec: the missing `connect` bodies.
`transport i` is the outcome of the `i`-th transport connection
attempt.  `connectLoop transport n made = (total attempts, success)`
after up to `n` further attempts, `made` attempts already made. -/
def connectLoop (transport : Nat → Bool) : Nat → Nat → Nat × Bool
  | 0, made => (made, false)
  | n + 1, made =>
      if transport made then (made + 1, true)
      else connectLoop transport n (made + 1)

/-- Modelled from the spec: one `connect` call makes up to `retries_`
transport connection attempts, returning true at the first success,
false once all are exhausted.  Result: `(attempts made, verdict)`. -/
def connect (retries : Nat) (transport : Nat → Bool) : Nat × Bool :=
  connectLoop transport retries 0

/-! ## Session state, channels, polling -/

/-- The logical channels (spec section 2: query channel, block feed,
transaction feed; the sockets of header lines 196-198). -/
inductive Channel where
  | query
  | blockFeed
  | transactionFeed
deriving DecidableEq, Repr

/-- The channel set `wait` polls (the query channel; header dealer). -/
def waitChannels : List Channel := [.query]

/-- The channel set `monitor` polls (the two feed channels). -/
def monitorChannels : List Channel := [.blockFeed, .transactionFeed]

/-- One message available on some channel during a poll: a reply
frame on the query channel, or a raw feed message whose domain-codec
verdict is `ok`. -/
inductive ChannelMessage where
  | queryReply (f : Frame)
  | blockMessage (ok : Bool) (bs : List Nat)
  | transactionMessage (ok : Bool) (bs : List Nat)
deriving DecidableEq, Repr

/-- The channel a message arrives on. -/
def ChannelMessage.channel : ChannelMessage → Channel
  | .queryReply _ => .query
  | .blockMessage _ _ => .blockFeed
  | .transactionMessage _ _ => .transactionFeed

/-- The two feed kinds. -/
inductive FeedKind where
  | block
  | transaction
deriving DecidableEq, Repr

/-- One invocation of a feed handler: the feed kind, the registered
handler's tag, and the decoded message (kept as its bytes). -/
structure FeedInvocation where
  kind : FeedKind
  tag : Nat
  message : List Nat
deriving DecidableEq, Repr

/-- Whole-session state: the correlator plus the single persistent
feed handler per kind (`on_block_update_` / `on_transaction_update_`,
header lines 205-206; `none` when never registered). -/
structure SessionState where
  client : ClientState
  on_block_update_ : Option Nat
  on_transaction_update_ : Option Nat
deriving DecidableEq, Repr

/-- Modelled from the spec: handling of one polled message.  A query
reply goes through the correlator's `dispatch`; a feed message is
decoded by the domain codec (verdict `ok`) and delivered to the
currently registered handler of its kind — dropped silently if the
codec fails or no handler is registered (sections 4.4 and 7). -/
def processMessage (s : SessionState) :
    ChannelMessage → SessionState × List Invocation × List FeedInvocation
  | .queryReply f =>
      match dispatch s.client f with
      | (c, .invoked inv) => ({ s with client := c }, [inv], [])
      | (c, _) => ({ s with client := c }, [], [])
  | .blockMessage ok bs =>
      match ok, s.on_block_update_ with
      | true, some tag => (s, [], [⟨.block, tag, bs⟩])
      | _, _ => (s, [], [])
  | .transactionMessage ok bs =>
      match ok, s.on_transaction_update_ with
      | true, some tag => (s, [], [⟨.transaction, tag, bs⟩])
      | _, _ => (s, [], [])

/-- Modelled from the spec (section 4.1 `poll`): process, in arrival
order, those of the available messages that are on a polled channel;
messages on channels outside the polled set are left untouched. -/
def pollLoop (chs : List Channel) (s : SessionState) :
    List ChannelMessage → SessionState × List Invocation × List FeedInvocation
  | [] => (s, [], [])
  | m :: ms =>
      if m.channel ∈ chs then
        let r := processMessage s m
        let rest := pollLoop chs r.1 ms
        (rest.1, r.2.1 ++ rest.2.1, r.2.2 ++ rest.2.2)
      else
        pollLoop chs s ms

/-- Modelled from the spec (section 4.4 `monitor`): poll only the
feed channels until the deadline; `ms` are the messages that arrive
before it.  Never touches pending query-channel requests. -/
def monitor (s : SessionState) (ms : List ChannelMessage) :
    SessionState × List Invocation × List FeedInvocation :=
  pollLoop monitorChannels s ms

/-- Modelled from the spec (`wait`): poll the query channel until the
deadline (`ms` are the replies that arrive before it), then sweep any
requests still pending with the timeout code `timeoutEc`. -/
def wait (s : SessionState) (ms : List ChannelMessage) (timeoutEc : Nat) :
    SessionState × List Invocation × List FeedInvocation :=
  let r := pollLoop waitChannels s ms
  if requests_outstanding r.1.client then
    let c := clear_outstanding_requests r.1.client timeoutEc
    ({ r.1 with client := c.1 }, r.2.1 ++ c.2, r.2.2)
  else r

/-! ## Subscribers -/

/-- Modelled from the spec (section 4.4): `subscribe_block` connects
the block feed socket to the endpoint (`connectOk` is the transport
verdict) and installs the handler, returning the verdict — `bool`,
synchronously; no handler is invoked to report a failure. -/
def subscribe_block (s : SessionState) (connectOk : Bool) (tag : Nat) :
    SessionState × Bool × List FeedInvocation :=
  if connectOk then ({ s with on_block_update_ := some tag }, true, [])
  else (s, false, [])

/-- Modelled from the spec (section 4.4): as `subscribe_block`, for
the transaction feed. -/
def subscribe_transaction (s : SessionState) (connectOk : Bool) (tag : Nat) :
    SessionState × Bool × List FeedInvocation :=
  if connectOk then ({ s with on_transaction_update_ := some tag }, true, [])
  else (s, false, [])

/-- Modelled from the spec (section 4.4): `subscribe_address` routes
a subscribe frame through the correlator under the generic update
shape; it returns `void` — no immediate invocation, the outcome
arrives later through `dispatch`. -/
def subscribe_address (s : SessionState) (tag : Nat) :
    SessionState × List Invocation :=
  ({ s with client := enqueue s.client .update tag }, [])

/-- Modelled from the spec (section 4.4): as `subscribe_address`,
keyed by a stealth filter instead of an address hash. -/
def subscribe_stealth (s : SessionState) (tag : Nat) :
    SessionState × List Invocation :=
  ({ s with client := enqueue s.client .update tag }, [])

/-! ## Session traces -/

/-- One correlator-visible event: an enqueue (any fetch, broadcast or
address/stealth subscribe entry point), the arrival of a reply frame,
or a sweep (a `wait`/teardown deadline). -/
inductive Event where
  | enq (sh : Shape) (tag : Nat)
  | reply (f : Frame)
  | sweep (ec : Nat)
deriving DecidableEq, Repr

/-- Effect of one event on the correlator. -/
def stepEvent (s : ClientState) : Event → ClientState × List Invocation
  | .enq sh tag => (enqueue s sh tag, [])
  | .reply f =>
      match dispatch s f with
      | (c, .invoked inv) => (c, [inv])
      | (c, _) => (c, [])
  | .sweep ec => clear_outstanding_requests s ec

/-- Run a trace of events, collecting every handler invocation. -/
def runEvents (s : ClientState) : List Event → ClientState × List Invocation
  | [] => (s, [])
  | e :: es =>
      let r := stepEvent s e
      let rest := runEvents r.1 es
      (rest.1, r.2 ++ rest.2)

/-- All invocations over a session's lifetime: the trace from
construction, then the teardown sweep with the shutdown code
(spec section 7, ShutdownCancelled). -/
def sessionInvocations (es : List Event) (shutdownEc : Nat) : List Invocation :=
  (runEvents initialState es).2 ++
    (clear_outstanding_requests (runEvents initialState es).1 shutdownEc).2

/-- The handler tags registered by the enqueues of a trace. -/
def enqueueTags : List Event → List Nat
  | [] => []
  | .enq _ tag :: es => tag :: enqueueTags es
  | _ :: es => enqueueTags es

/-- The id the next enqueue would allocate is not pending in the
table of shape `sh`. -/
def freshForShape (s : ClientState) (sh : Shape) : Bool :=
  (mapLookup (next_request_index s) (s.tables.get sh)).isNone

/-- The id the next enqueue would allocate is pending in no table. -/
def freshForAll (s : ClientState) : Bool :=
  allShapes.all (fun sh =>
    (mapLookup (next_request_index s) (s.tables.get sh)).isNone)

/-- Every enqueue of the trace allocates an id that is not already
pending in its target table (true as long as no still-outstanding
request is `2^32` or more allocations old). -/
def freshRun (s : ClientState) : List Event → Bool
  | [] => true
  | .enq sh tag :: es => freshForShape s sh && freshRun (enqueue s sh tag) es
  | e :: es => freshRun (stepEvent s e).1 es

/-! ## Id uniqueness -/

/-- The spec's id invariant over the correlator state: within each
table every id occurs at most once, and no id is pending in two
different tables. -/
def idInvariant (s : ClientState) : Prop :=
  (∀ sh : Shape, (mapKeys (s.tables.get sh)).Nodup) ∧
    ∀ a : Shape, ∀ b : Shape, a ≠ b →
      ∀ k ∈ mapKeys (s.tables.get a), k ∉ mapKeys (s.tables.get b)

/-- The trace whose `n` enqueues all target the plain-result table,
registering handler tag `i` at step `i`. -/
def wrapTrace (n : Nat) : List Event :=
  (List.range n).map (fun i => Event.enq .result i)

/-- One plain-result enqueue followed by `n` height enqueues. -/
def crossTrace (n : Nat) : List Event :=
  Event.enq .result 7 :: (List.range n).map (fun i => Event.enq .height (1000 + i))

/-- The plain-result table `wrapTrace n` produces while the id
counter has not yet revisited an id: entry `j` holds handler tag `j`
under id `(j + 1) % 2^32`. -/
def resultTableAfter (n : Nat) : List (Nat × Nat) :=
  (List.range n).map (fun j => ((j + 1) % idModulus, j))

/-- Occurrences of the tag `t` in a list of handler tags. -/
def countNat (t : Nat) (l : List Nat) : Nat :=
  l.countP (fun x => x == t)

/-! ## Helper lemmas on tables -/

theorem mapKeys_nil : mapKeys [] = [] := rfl

theorem mapKeys_cons (e : Nat × Nat) (l : List (Nat × Nat)) :
    mapKeys (e :: l) = e.1 :: mapKeys l := rfl

theorem mapKeys_append (l1 l2 : List (Nat × Nat)) :
    mapKeys (l1 ++ l2) = mapKeys l1 ++ mapKeys l2 := by
  simp [mapKeys]

theorem get_set_same (t : PendingTables) (sh : Shape) (l : List (Nat × Nat)) :
    (t.set sh l).get sh = l := by
  cases sh <;> rfl

theorem get_set_ne (t : PendingTables) (sh sh' : Shape) (l : List (Nat × Nat))
    (h : sh ≠ sh') : (t.set sh l).get sh' = t.get sh' := by
  cases sh <;> cases sh' <;> first | rfl | exact absurd rfl h

theorem mem_allShapes (sh : Shape) : sh ∈ allShapes := by
  cases sh <;> simp [allShapes]

theorem mapLookup_eq_none_iff (k : Nat) (l : List (Nat × Nat)) :
    mapLookup k l = none ↔ k ∉ mapKeys l := by
  induction l with
  | nil => simp [mapLookup, mapKeys_nil]
  | cons e rest ih =>
      by_cases h : e.1 = k
      · simp [mapLookup, mapKeys_cons, h]
      · simp [mapLookup, mapKeys_cons, h, ih, Ne.symm h]

theorem mapInsert_of_not_mem (k v : Nat) (l : List (Nat × Nat))
    (h : k ∉ mapKeys l) : mapInsert k v l = l ++ [(k, v)] := by
  induction l with
  | nil => rfl
  | cons e rest ih =>
      rw [mapKeys_cons, List.mem_cons] at h
      push_neg at h
      simp [mapInsert, Ne.symm h.1, ih h.2]

theorem mem_mapKeys_mapInsert_self (k v : Nat) (l : List (Nat × Nat)) :
    k ∈ mapKeys (mapInsert k v l) := by
  induction l with
  | nil => simp [mapInsert, mapKeys_cons, mapKeys_nil]
  | cons e rest ih =>
      by_cases h : e.1 = k
      · simp [mapInsert, h, mapKeys_cons]
      · rw [mapInsert, if_neg h, mapKeys_cons, List.mem_cons]
        exact Or.inr ih

theorem mem_mapKeys_mapInsert (a k v : Nat) (l : List (Nat × Nat))
    (h : a ∈ mapKeys (mapInsert k v l)) : a = k ∨ a ∈ mapKeys l := by
  induction l with
  | nil =>
      rw [mapInsert, mapKeys_cons, List.mem_cons] at h
      rcases h with h | h
      · exact Or.inl h
      · simp [mapKeys_nil] at h
  | cons e rest ih =>
      by_cases he : e.1 = k
      · rw [mapInsert, if_pos he, mapKeys_cons, List.mem_cons] at h
        rcases h with h | h
        · exact Or.inl h
        · exact Or.inr (by rw [mapKeys_cons, List.mem_cons]; exact Or.inr h)
      · rw [mapInsert, if_neg he, mapKeys_cons, List.mem_cons] at h
        rcases h with h | h
        · exact Or.inr (by rw [mapKeys_cons, List.mem_cons]; exact Or.inl h)
        · rcases ih h with h' | h'
          · exact Or.inl h'
          · exact Or.inr (by rw [mapKeys_cons, List.mem_cons]; exact Or.inr h')

theorem mapErase_sublist (k : Nat) (l : List (Nat × Nat)) :
    List.Sublist (mapErase k l) l := by
  induction l with
  | nil => simp [mapErase]
  | cons e rest ih =>
      by_cases h : e.1 = k
      · rw [mapErase, if_pos h]
        exact List.sublist_cons_self e rest
      · rw [mapErase, if_neg h]
        exact ih.cons₂ e

theorem mapKeys_mapErase_sublist (k : Nat) (l : List (Nat × Nat)) :
    List.Sublist (mapKeys (mapErase k l)) (mapKeys l) :=
  (mapErase_sublist k l).map _

theorem countP_mapErase (p : Nat × Nat → Bool) (k tag : Nat) (l : List (Nat × Nat))
    (h : mapLookup k l = some tag) :
    (mapErase k l).countP p + (if p (k, tag) then 1 else 0) = l.countP p := by
  induction l with
  | nil => simp [mapLookup] at h
  | cons e rest ih =>
      by_cases he : e.1 = k
      · rw [mapLookup, if_pos he] at h
        have hek : e = (k, tag) := by
          obtain ⟨e1, e2⟩ := e
          simp at he h
          simp [he, h]
        subst hek
        rw [mapErase, if_pos rfl, List.countP_cons]
      · rw [mapLookup, if_neg he] at h
        rw [mapErase, if_neg he, List.countP_cons, List.countP_cons]
        have := ih h
        omega

theorem countP_mapInsert_fresh (p : Nat × Nat → Bool) (k v : Nat) (l : List (Nat × Nat))
    (h : k ∉ mapKeys l) :
    (mapInsert k v l).countP p = l.countP p + (if p (k, v) then 1 else 0) := by
  rw [mapInsert_of_not_mem k v l h, List.countP_append]
  simp [List.countP_cons]

theorem sumShapes_set (f : List (Nat × Nat) → Nat) (t : PendingTables) (sh : Shape)
    (l : List (Nat × Nat)) :
    (allShapes.map (fun x => f ((t.set sh l).get x))).sum + f (t.get sh) =
      (allShapes.map (fun x => f (t.get x))).sum + f l := by
  cases sh <;>
    (simp [allShapes, PendingTables.get, PendingTables.set]; try omega)

theorem mapLookup_mapInsert_self (k v : Nat) (l : List (Nat × Nat)) :
    mapLookup k (mapInsert k v l) = some v := by
  induction l with
  | nil => simp [mapInsert, mapLookup]
  | cons e rest ih =>
      by_cases h : e.1 = k
      · simp [mapInsert, h, mapLookup]
      · simp [mapInsert, h, mapLookup, ih]

theorem countTag_append (t : Nat) (l1 l2 : List Invocation) :
    countTag t (l1 ++ l2) = countTag t l1 + countTag t l2 :=
  List.countP_append _ l1 l2

theorem countTag_sweepInvocations (t : Nat) (s : ClientState) (ec : Nat) :
    countTag t (sweepInvocations s ec) = countPendingTag t s := by
  unfold countTag sweepInvocations countPendingTag
  rw [List.countP_flatten]
  simp [List.countP_map, Function.comp_def]

theorem length_sweepInvocations (s : ClientState) (ec : Nat) :
    (sweepInvocations s ec).length = totalPending s := by
  unfold sweepInvocations totalPending
  rw [List.length_flatten]
  simp [Function.comp_def]

/-! ## C2 -/

/-- C2: after `clear_outstanding_requests ec` runs, every one of the
remaining handlers has been invoked exactly once (per handler tag, as
many invocations as there were pending entries with that tag — once
each, and in total as many invocations as pending entries), each with
the same error code `ec` and its shape's default value, and every
pending table is empty, so `requests_outstanding` is false. -/
theorem C2_clear_outstanding_requests (s : ClientState) (ec t : Nat) :
    countTag t (clear_outstanding_requests s ec).2 = countPendingTag t s ∧
    (clear_outstanding_requests s ec).2.length = totalPending s ∧
    (∀ inv ∈ (clear_outstanding_requests s ec).2,
      inv.ec = ec ∧ inv.value = inv.shape.defaultValue) ∧
    requests_outstanding (clear_outstanding_requests s ec).1 = false ∧
    (clear_outstanding_requests s ec).1.tables = emptyTables := by
  refine ⟨countTag_sweepInvocations t s ec, length_sweepInvocations s ec, ?_, rfl, rfl⟩
  intro inv hinv
  unfold clear_outstanding_requests sweepInvocations at hinv
  simp only [List.mem_flatten, List.mem_map] at hinv
  obtain ⟨l, ⟨sh, hsh, hl⟩, hmem⟩ := hinv
  subst hl
  simp only [List.mem_map] at hmem
  obtain ⟨e, he, hinv⟩ := hmem
  subst hinv
  exact ⟨rfl, rfl⟩

/-- C2 witness: the sweep on a concrete state with two pending
requests of different shapes, error code 7. -/
theorem C2_clear_outstanding_requests_witness :
    countTag 3 (clear_outstanding_requests ⟨5, ⟨[(1, 3)], [(2, 4)], [], [], [], [], [], [], []⟩⟩ 7).2 =
      countPendingTag 3 ⟨5, ⟨[(1, 3)], [(2, 4)], [], [], [], [], [], [], []⟩⟩ ∧
    (clear_outstanding_requests ⟨5, ⟨[(1, 3)], [(2, 4)], [], [], [], [], [], [], []⟩⟩ 7).2.length =
      totalPending ⟨5, ⟨[(1, 3)], [(2, 4)], [], [], [], [], [], [], []⟩⟩ ∧
    (∀ inv ∈ (clear_outstanding_requests ⟨5, ⟨[(1, 3)], [(2, 4)], [], [], [], [], [], [], []⟩⟩ 7).2,
      inv.ec = 7 ∧ inv.value = inv.shape.defaultValue) ∧
    requests_outstanding
      (clear_outstanding_requests ⟨5, ⟨[(1, 3)], [(2, 4)], [], [], [], [], [], [], []⟩⟩ 7).1 = false ∧
    (clear_outstanding_requests ⟨5, ⟨[(1, 3)], [(2, 4)], [], [], [], [], [], [], []⟩⟩ 7).1.tables =
      emptyTables :=
  C2_clear_outstanding_requests ⟨5, ⟨[(1, 3)], [(2, 4)], [], [], [], [], [], [], []⟩⟩ 7 3

/-! ## C3 -/

/-- C3: a reply frame whose id has no entry in the pending table
matching its command's result shape is silently dropped: no handler
invoked, no error reported, the state (all pending tables) unchanged. -/
theorem C3_late_reply_dropped (s : ClientState) (f : Frame) (sh : Shape)
    (hcmd : commandShape f.command = some sh)
    (hid : mapLookup f.id (s.tables.get sh) = none) :
    dispatch s f = (s, DispatchResult.droppedLate) := by
  simp only [dispatch, hcmd, hid]

/-- C3 witness: a last-height reply with id 1 against a session with
nothing pending. -/
theorem C3_late_reply_dropped_witness :
    commandShape "blockchain.fetch_last_height" = some Shape.height ∧
    mapLookup 1 (initialState.tables.get Shape.height) = none ∧
    dispatch initialState ⟨"blockchain.fetch_last_height", 1, [0, 0, 0, 0]⟩ =
      (initialState, DispatchResult.droppedLate) :=
  ⟨by decide, rfl,
    C3_late_reply_dropped initialState ⟨"blockchain.fetch_last_height", 1, [0, 0, 0, 0]⟩
      Shape.height (by decide) rfl⟩

/-! ## C7 -/

/-- C4 counterexample: the spec lists ten result shapes, but the
header declares only nine pending tables; in particular there is no
points-value pending table (no `points_value_handlers_` member and no
`points_value_handler_map` typedef), so `blockchain_fetch_unspent_outputs`
cannot store its handler in one. -/
theorem C4_counterexample :
    spec_listed_result_shapes.length = 10 ∧
    handler_map_members.length = 9 ∧
    "points_value_handlers_" ∉ handler_map_members ∧
    "points_value_handler_map" ∉ handler_map_typedefs := by
  decide

/-- C4 amended: the pending-handler state contains one parallel table
for each of nine result shapes — plain result, height, tx-index,
block, header, transaction, history list, stealth list, generic
update — and no points-value table, although the `points_value_handler`
type exists and is the handler type `blockchain_fetch_unspent_outputs`
takes. -/
theorem C4_amended :
    handler_map_members =
      [ "result_handlers_", "height_handlers_", "transaction_index_handlers_"
      , "block_handlers_", "block_header_handlers_", "transaction_handlers_"
      , "history_handlers_", "stealth_handlers_", "update_handlers_" ] ∧
    handler_map_members.length = allShapes.length ∧
    unspent_outputs_handler_type ∈ fetch_handler_typedefs ∧
    "points_value_handlers_" ∉ handler_map_members := by
  decide

/-! ## C5 -/

/-- C5 counterexample: with the default `retries_` of 5 and a
transport that fails the first attempt and succeeds the second, one
`connect` call makes two transport connection attempts (not one) and
returns true; with an always-failing transport it makes five. -/
theorem C5_counterexample :
    (connect 5 (fun i => decide (0 < i))).2 = true ∧
    (connect 5 (fun i => decide (0 < i))).1 = 2 ∧
    (connect 5 (fun _ => false)).1 = 5 := by
  decide

theorem connectLoop_spec (t : Nat → Bool) (n made : Nat) :
    (connectLoop t n made).1 ≤ made + n ∧
      ((connectLoop t n made).2 = true ↔
        ∃ i, made ≤ i ∧ i < made + n ∧ t i = true) := by
  induction n generalizing made with
  | zero =>
      simp only [connectLoop]
      refine ⟨Nat.le_refl _, ?_⟩
      constructor
      · intro h
        exact absurd h (by simp)
      · rintro ⟨i, h1, h2, -⟩
        omega
  | succ n ih =>
      have hunf : connectLoop t (n + 1) made =
          if t made then (made + 1, true) else connectLoop t n (made + 1) := rfl
      by_cases h : t made
      · rw [hunf, if_pos h]
        refine ⟨by show made + 1 ≤ made + (n + 1); omega, ?_⟩
        constructor
        · intro _
          exact ⟨made, Nat.le_refl _, by omega, h⟩
        · intro _
          rfl
      · rw [hunf, if_neg h]
        obtain ⟨ih1, ih2⟩ := ih (made + 1)
        refine ⟨by omega, ?_⟩
        rw [ih2]
        constructor
        · rintro ⟨i, h1, h2, h3⟩
          exact ⟨i, by omega, by omega, h3⟩
        · rintro ⟨i, h1, h2, h3⟩
          refine ⟨i, ?_, by omega, h3⟩
          rcases Nat.eq_or_lt_of_le h1 with h1' | h1'
          · subst h1'
            rw [h3] at h
            exact absurd rfl h
          · omega

/-- C5 amended: one `connect` call makes up to `retries` transport
connection attempts — not always exactly one — returning true exactly
when one of the first `retries` attempts succeeds; any policy beyond
those internal attempts is the caller's (there is no mid-session
reconnection in the model). -/
theorem C5_amended (r : Nat) (t : Nat → Bool) :
    (connect r t).1 ≤ r ∧
      ((connect r t).2 = true ↔ ∃ i, i < r ∧ t i = true) := by
  obtain ⟨h1, h2⟩ := connectLoop_spec t r 0
  unfold connect
  refine ⟨by omega, ?_⟩
  rw [h2]
  constructor
  · rintro ⟨i, -, h3, h4⟩
    exact ⟨i, by omega, h4⟩
  · rintro ⟨i, h3, h4⟩
    exact ⟨i, Nat.zero_le _, by omega, h4⟩

/-- C5 amended witness: three allowed attempts against a transport
that succeeds only on the second attempt. -/
theorem C5_amended_witness :
    (connect 3 (fun i => i == 1)).1 ≤ 3 ∧
      ((connect 3 (fun i => i == 1)).2 = true ↔
        ∃ i, i < 3 ∧ (i == 1) = true) :=
  C5_amended 3 (fun i => i == 1)

/-! ## Poll-loop lemmas -/

theorem processMessage_handlers (s : SessionState) (m : ChannelMessage) :
    (processMessage s m).1.on_block_update_ = s.on_block_update_ ∧
      (processMessage s m).1.on_transaction_update_ = s.on_transaction_update_ := by
  cases m with
  | queryReply f =>
      simp only [processMessage]
      rcases hd : dispatch s.client f with ⟨c, r⟩
      cases r <;> simp
  | blockMessage ok bs =>
      cases ok <;> rcases h : s.on_block_update_ with - | tag <;>
        simp [processMessage, h]
  | transactionMessage ok bs =>
      cases ok <;> rcases h : s.on_transaction_update_ with - | tag <;>
        simp [processMessage, h]

theorem processMessage_feedTags (s : SessionState) (m : ChannelMessage) :
    ∀ fi ∈ (processMessage s m).2.2,
      (fi.kind = FeedKind.block → s.on_block_update_ = some fi.tag) ∧
      (fi.kind = FeedKind.transaction → s.on_transaction_update_ = some fi.tag) := by
  cases m with
  | queryReply f =>
      simp only [processMessage]
      rcases hd : dispatch s.client f with ⟨c, r⟩
      cases r <;> simp
  | blockMessage ok bs =>
      cases ok <;> rcases h : s.on_block_update_ with - | tag <;>
        simp [processMessage, h]
  | transactionMessage ok bs =>
      cases ok <;> rcases h : s.on_transaction_update_ with - | tag <;>
        simp [processMessage, h]

theorem pollLoop_handlers (chs : List Channel) (ms : List ChannelMessage)
    (s : SessionState) :
    (pollLoop chs s ms).1.on_block_update_ = s.on_block_update_ ∧
      (pollLoop chs s ms).1.on_transaction_update_ = s.on_transaction_update_ := by
  induction ms generalizing s with
  | nil => exact ⟨rfl, rfl⟩
  | cons m ms ih =>
      by_cases hc : m.channel ∈ chs
      · obtain ⟨h1, h2⟩ := processMessage_handlers s m
        obtain ⟨h3, h4⟩ := ih (processMessage s m).1
        simp only [pollLoop, if_pos hc]
        exact ⟨h3.trans h1, h4.trans h2⟩
      · simp only [pollLoop, if_neg hc]
        exact ih s

theorem pollLoop_feedTags (chs : List Channel) (ms : List ChannelMessage)
    (s : SessionState) :
    ∀ fi ∈ (pollLoop chs s ms).2.2,
      (fi.kind = FeedKind.block → s.on_block_update_ = some fi.tag) ∧
      (fi.kind = FeedKind.transaction → s.on_transaction_update_ = some fi.tag) := by
  induction ms generalizing s with
  | nil => simp [pollLoop]
  | cons m ms ih =>
      by_cases hc : m.channel ∈ chs
      · simp only [pollLoop, if_pos hc]
        intro fi hfi
        rw [List.mem_append] at hfi
        rcases hfi with hfi | hfi
        · exact processMessage_feedTags s m fi hfi
        · obtain ⟨h1, h2⟩ := processMessage_handlers s m
          obtain ⟨h3, h4⟩ := ih (processMessage s m).1 fi hfi
          exact ⟨fun hk => h1 ▸ h3 hk, fun hk => h2 ▸ h4 hk⟩
      · simp only [pollLoop, if_neg hc]
        exact ih s

theorem pollLoop_feeds_client (ms : List ChannelMessage) (s : SessionState) :
    (pollLoop monitorChannels s ms).1.client = s.client ∧
      (pollLoop monitorChannels s ms).2.1 = [] := by
  induction ms generalizing s with
  | nil => exact ⟨rfl, rfl⟩
  | cons m ms ih =>
      cases m with
      | queryReply f =>
          have hc : ChannelMessage.channel (.queryReply f) ∉ monitorChannels := by
            simp [ChannelMessage.channel, monitorChannels]
          simp only [pollLoop, if_neg hc]
          exact ih s
      | blockMessage ok bs =>
          have hc : ChannelMessage.channel (.blockMessage ok bs) ∈ monitorChannels := by
            simp [ChannelMessage.channel, monitorChannels]
          have hp : (processMessage s (.blockMessage ok bs)).1 = s ∧
              (processMessage s (.blockMessage ok bs)).2.1 = [] := by
            cases ok <;> rcases h : s.on_block_update_ with - | tag <;>
              simp [processMessage, h]
          obtain ⟨h3, h4⟩ := ih (processMessage s (.blockMessage ok bs)).1
          simp only [pollLoop, if_pos hc]
          rw [hp.2, h3, h4, hp.1]
          exact ⟨rfl, rfl⟩
      | transactionMessage ok bs =>
          have hc : ChannelMessage.channel (.transactionMessage ok bs) ∈ monitorChannels := by
            simp [ChannelMessage.channel, monitorChannels]
          have hp : (processMessage s (.transactionMessage ok bs)).1 = s ∧
              (processMessage s (.transactionMessage ok bs)).2.1 = [] := by
            cases ok <;> rcases h : s.on_transaction_update_ with - | tag <;>
              simp [processMessage, h]
          obtain ⟨h3, h4⟩ := ih (processMessage s (.transactionMessage ok bs)).1
          simp only [pollLoop, if_pos hc]
          rw [hp.2, h3, h4, hp.1]
          exact ⟨rfl, rfl⟩

/-! ## C8 -/

/-- C8: `monitor` polls only the feed channels: for any state and any
arriving messages, the whole correlator state (all pending tables)
after `monitor` equals the one before, no per-request handler is
invoked by it, and the channel sets `wait` and `monitor` poll are
disjoint. -/
theorem C8_monitor_only_feeds (s : SessionState) (ms : List ChannelMessage) :
    (monitor s ms).1.client = s.client ∧
    (monitor s ms).2.1 = [] ∧
    ∀ c ∈ waitChannels, c ∉ monitorChannels := by
  obtain ⟨h1, h2⟩ := pollLoop_feeds_client ms s
  exact ⟨h1, h2, by decide⟩

/-- C8 witness: a monitor call over a mixed message batch, including
a query-channel reply it must not consume, against a session with a
pending height request. -/
theorem C8_monitor_only_feeds_witness :
    (monitor ⟨⟨1, ⟨[], [(1, 42)], [], [], [], [], [], [], []⟩⟩, some 8, none⟩
        [ ChannelMessage.blockMessage true [1]
        , ChannelMessage.queryReply ⟨"blockchain.fetch_last_height", 1, [0, 0, 0, 0]⟩
        , ChannelMessage.transactionMessage false [2] ]).1.client =
      (⟨⟨1, ⟨[], [(1, 42)], [], [], [], [], [], [], []⟩⟩, some 8, none⟩ : SessionState).client ∧
    (monitor ⟨⟨1, ⟨[], [(1, 42)], [], [], [], [], [], [], []⟩⟩, some 8, none⟩
        [ ChannelMessage.blockMessage true [1]
        , ChannelMessage.queryReply ⟨"blockchain.fetch_last_height", 1, [0, 0, 0, 0]⟩
        , ChannelMessage.transactionMessage false [2] ]).2.1 = [] ∧
    ∀ c ∈ waitChannels, c ∉ monitorChannels :=
  C8_monitor_only_feeds ⟨⟨1, ⟨[], [(1, 42)], [], [], [], [], [], [], []⟩⟩, some 8, none⟩
    [ ChannelMessage.blockMessage true [1]
    , ChannelMessage.queryReply ⟨"blockchain.fetch_last_height", 1, [0, 0, 0, 0]⟩
    , ChannelMessage.transactionMessage false [2] ]

/-! ## C6 -/

/-- C6: registering a second block (or transaction) feed handler
supersedes the first: the registered handler is the most recent one,
and every feed message of that kind dispatched afterwards invokes
only the most recent handler — the superseded one gets no further
callbacks of its kind and no cancellation callback. -/
theorem C6_second_registration_supersedes (s : SessionState)
    (h1 h2 t1 t2 : Nat) (ms : List ChannelMessage) :
    (subscribe_block (subscribe_block s true h1).1 true h2).1.on_block_update_ = some h2 ∧
    (∀ fi ∈ (monitor (subscribe_block (subscribe_block s true h1).1 true h2).1 ms).2.2,
      fi.kind = FeedKind.block → fi.tag = h2) ∧
    (subscribe_transaction (subscribe_transaction s true t1).1 true t2).1.on_transaction_update_ =
      some t2 ∧
    (∀ fi ∈ (monitor (subscribe_transaction (subscribe_transaction s true t1).1 true t2).1 ms).2.2,
      fi.kind = FeedKind.transaction → fi.tag = t2) := by
  refine ⟨rfl, ?_, rfl, ?_⟩
  · intro fi hfi hk
    have := (pollLoop_feedTags monitorChannels ms _ fi hfi).1 hk
    rw [show (subscribe_block (subscribe_block s true h1).1 true h2).1.on_block_update_ =
      some h2 from rfl] at this
    exact (Option.some_injective _ this).symm
  · intro fi hfi hk
    have := (pollLoop_feedTags monitorChannels ms _ fi hfi).2 hk
    rw [show (subscribe_transaction (subscribe_transaction s true t1).1 true
      t2).1.on_transaction_update_ = some t2 from rfl] at this
    exact (Option.some_injective _ this).symm

/-- C6 witness: two successive block registrations (tags 1 then 2)
and two transaction registrations (tags 3 then 4), then a monitor
call delivering one message of each kind. -/
theorem C6_second_registration_supersedes_witness :
    (subscribe_block (subscribe_block ⟨initialState, none, none⟩ true 1).1 true 2).1.on_block_update_ =
      some 2 ∧
    (∀ fi ∈ (monitor (subscribe_block (subscribe_block ⟨initialState, none, none⟩ true 1).1 true 2).1
        [ChannelMessage.blockMessage true [9], ChannelMessage.transactionMessage true [8]]).2.2,
      fi.kind = FeedKind.block → fi.tag = 2) ∧
    (subscribe_transaction (subscribe_transaction ⟨initialState, none, none⟩ true 3).1 true
      4).1.on_transaction_update_ = some 4 ∧
    (∀ fi ∈ (monitor (subscribe_transaction (subscribe_transaction ⟨initialState, none, none⟩ true
        3).1 true 4).1
        [ChannelMessage.blockMessage true [9], ChannelMessage.transactionMessage true [8]]).2.2,
      fi.kind = FeedKind.transaction → fi.tag = 4) :=
  C6_second_registration_supersedes ⟨initialState, none, none⟩ 1 2 3 4
    [ChannelMessage.blockMessage true [9], ChannelMessage.transactionMessage true [8]]

/-! ## C10 -/

/-- C10: `subscribe_address`/`subscribe_stealth` return void and route
their registration through the correlator (the handler becomes a
pending update-shape entry under the newly allocated id, with no
immediate invocation), while `subscribe_block`/`subscribe_transaction`
take a feed endpoint and synchronously return a bool equal to the
feed-channel connect verdict; on failure the session is unchanged and
no handler is invoked to report the failure. -/
theorem C10_subscriber_surface (s : SessionState) (c : Bool) (tag : Nat) :
    subscriber_return_types.lookup "subscribe_address" = some "void" ∧
    subscriber_return_types.lookup "subscribe_stealth" = some "void" ∧
    subscriber_return_types.lookup "subscribe_block" = some "bool" ∧
    subscriber_return_types.lookup "subscribe_transaction" = some "bool" ∧
    (subscribe_block s c tag).2.1 = c ∧
    (subscribe_transaction s c tag).2.1 = c ∧
    (subscribe_block s false tag).1 = s ∧
    (subscribe_transaction s false tag).1 = s ∧
    (subscribe_block s c tag).2.2 = [] ∧
    (subscribe_transaction s c tag).2.2 = [] ∧
    (subscribe_block s true tag).1.on_block_update_ = some tag ∧
    (subscribe_transaction s true tag).1.on_transaction_update_ = some tag ∧
    (subscribe_address s tag).2 = [] ∧
    (subscribe_stealth s tag).2 = [] ∧
    mapLookup (next_request_index s.client)
      ((subscribe_address s tag).1.client.tables.get Shape.update) = some tag ∧
    mapLookup (next_request_index s.client)
      ((subscribe_stealth s tag).1.client.tables.get Shape.update) = some tag := by
  refine ⟨rfl, rfl, rfl, rfl, ?_, ?_, rfl, rfl, ?_, ?_, rfl, rfl, rfl, rfl, ?_, ?_⟩
  · cases c <;> rfl
  · cases c <;> rfl
  · cases c <;> rfl
  · cases c <;> rfl
  · show mapLookup (next_request_index s.client)
      ((enqueue s.client Shape.update tag).tables.get Shape.update) = some tag
    rw [enqueue, get_set_same]
    exact mapLookup_mapInsert_self _ _ _
  · show mapLookup (next_request_index s.client)
      ((enqueue s.client Shape.update tag).tables.get Shape.update) = some tag
    rw [enqueue, get_set_same]
    exact mapLookup_mapInsert_self _ _ _


/-! ## Conservation: every pending registration is delivered exactly once -/

theorem countNat_nil (t : Nat) : countNat t [] = 0 := rfl

theorem countNat_cons (t a : Nat) (l : List Nat) :
    countNat t (a :: l) = countNat t l + (if a = t then 1 else 0) := by
  simp [countNat, List.countP_cons]

theorem countTag_singleton (t : Nat) (inv : Invocation) :
    countTag t [inv] = if inv.tag = t then 1 else 0 := by
  simp [countTag, List.countP_cons]

theorem countPendingTag_enqueue (s : ClientState) (sh : Shape) (tag t : Nat)
    (h : freshForShape s sh = true) :
    countPendingTag t (enqueue s sh tag) =
      countPendingTag t s + (if tag = t then 1 else 0) := by
  have hfresh : next_request_index s ∉ mapKeys (s.tables.get sh) :=
    (mapLookup_eq_none_iff _ _).mp (Option.isNone_iff_eq_none.mp h)
  have hsum := sumShapes_set (fun l => l.countP (fun e => e.2 == t)) s.tables sh
    (mapInsert (next_request_index s) tag (s.tables.get sh))
  have hins := countP_mapInsert_fresh (fun e => e.2 == t) (next_request_index s) tag
    (s.tables.get sh) hfresh
  simp only [beq_iff_eq] at hins
  unfold countPendingTag enqueue
  simp only
  by_cases htag : tag = t
  · subst htag
    rw [if_pos rfl] at hins ⊢
    omega
  · rw [if_neg htag] at hins ⊢
    omega

theorem countPendingTag_erase (s : ClientState) (sh : Shape) (k tag t : Nat)
    (h : mapLookup k (s.tables.get sh) = some tag) :
    countPendingTag t
        { s with tables := s.tables.set sh (mapErase k (s.tables.get sh)) } +
      (if tag = t then 1 else 0) = countPendingTag t s := by
  have hsum := sumShapes_set (fun l => l.countP (fun e => e.2 == t)) s.tables sh
    (mapErase k (s.tables.get sh))
  have hers := countP_mapErase (fun e => e.2 == t) k tag (s.tables.get sh) h
  simp only [beq_iff_eq] at hers
  unfold countPendingTag
  simp only
  by_cases htag : tag = t
  · subst htag
    rw [if_pos rfl] at hers ⊢
    omega
  · rw [if_neg htag] at hers ⊢
    omega

theorem countPendingTag_cleared (t : Nat) (s : ClientState) :
    countPendingTag t { s with tables := emptyTables } = 0 := rfl

theorem step_conservation (s : ClientState) (e : Event) (t : Nat)
    (h : ∀ sh tag, e = Event.enq sh tag → freshForShape s sh = true) :
    countPendingTag t (stepEvent s e).1 + countTag t (stepEvent s e).2 =
      countPendingTag t s + countNat t (enqueueTags [e]) := by
  cases e with
  | enq sh tag =>
      have hf := countPendingTag_enqueue s sh tag t (h sh tag rfl)
      have hc : countNat t (enqueueTags [Event.enq sh tag]) = if tag = t then 1 else 0 := by
        rw [show enqueueTags [Event.enq sh tag] = [tag] from rfl, countNat_cons, countNat_nil]
        omega
      have h0 : countTag t (stepEvent s (Event.enq sh tag)).2 = 0 := rfl
      have h1 : (stepEvent s (Event.enq sh tag)).1 = enqueue s sh tag := rfl
      rw [h0, h1, hf, hc]
      omega
  | reply f =>
      have hc : countNat t (enqueueTags [Event.reply f]) = 0 := rfl
      rw [hc]
      rcases h1 : commandShape f.command with - | sh
      · have hd : stepEvent s (Event.reply f) = (s, []) := by
          simp [stepEvent, dispatch, h1]
        rw [hd]
        simp [countTag]
      · rcases h2 : mapLookup f.id (s.tables.get sh) with - | tag
        · have hd : stepEvent s (Event.reply f) = (s, []) := by
            simp [stepEvent, dispatch, h1, h2]
          rw [hd]
          simp [countTag]
        · rcases h3 : readUint32 f.payload with - | sr
          · have hd : stepEvent s (Event.reply f) = (s, []) := by
              simp [stepEvent, dispatch, h1, h2, h3]
            rw [hd]
            simp [countTag]
          · obtain ⟨status, rest⟩ := sr
            by_cases h0 : status = 0
            · subst h0
              rcases h4 : decodeBody sh rest with - | v
              · have hd : stepEvent s (Event.reply f) = (s, []) := by
                  simp [stepEvent, dispatch, h1, h2, h3, h4]
                rw [hd]
                simp [countTag]
              · have hd : stepEvent s (Event.reply f) =
                    ({ s with tables := s.tables.set sh (mapErase f.id (s.tables.get sh)) },
                      [⟨tag, sh, 0, v⟩]) := by
                  simp [stepEvent, dispatch, h1, h2, h3, h4]
                have hd1 : (stepEvent s (Event.reply f)).1 =
                    { s with tables := s.tables.set sh (mapErase f.id (s.tables.get sh)) } := by
                  rw [hd]
                have hd2 : (stepEvent s (Event.reply f)).2 = [⟨tag, sh, 0, v⟩] := by
                  rw [hd]
                rw [hd1, hd2, countTag_singleton]
                have he := countPendingTag_erase s sh f.id tag t h2
                by_cases htag : tag = t
                · subst htag
                  rw [if_pos rfl] at he ⊢
                  omega
                · rw [if_neg htag] at he ⊢
                  omega
            · have hd : stepEvent s (Event.reply f) =
                  ({ s with tables := s.tables.set sh (mapErase f.id (s.tables.get sh)) },
                    [⟨tag, sh, status, sh.defaultValue⟩]) := by
                simp [stepEvent, dispatch, h1, h2, h3, h0]
              have hd1 : (stepEvent s (Event.reply f)).1 =
                  { s with tables := s.tables.set sh (mapErase f.id (s.tables.get sh)) } := by
                rw [hd]
              have hd2 : (stepEvent s (Event.reply f)).2 = [⟨tag, sh, status, sh.defaultValue⟩] := by
                rw [hd]
              rw [hd1, hd2, countTag_singleton]
              have he := countPendingTag_erase s sh f.id tag t h2
              by_cases htag : tag = t
              · subst htag
                rw [if_pos rfl] at he ⊢
                omega
              · rw [if_neg htag] at he ⊢
                omega
  | sweep ec =>
      have hc : countNat t (enqueueTags [Event.sweep ec]) = 0 := rfl
      have hsw : countTag t (clear_outstanding_requests s ec).2 =
          countPendingTag t s := countTag_sweepInvocations t s ec
      have hcl : countPendingTag t (clear_outstanding_requests s ec).1 = 0 :=
        countPendingTag_cleared t s
      rw [hc]
      show countPendingTag t (clear_outstanding_requests s ec).1 +
        countTag t (clear_outstanding_requests s ec).2 = countPendingTag t s + 0
      omega

theorem run_conservation (es : List Event) (s : ClientState) (t : Nat)
    (h : freshRun s es = true) :
    countPendingTag t (runEvents s es).1 + countTag t (runEvents s es).2 =
      countPendingTag t s + countNat t (enqueueTags es) := by
  induction es generalizing s with
  | nil => simp [runEvents, countTag, enqueueTags, countNat]
  | cons e es ih =>
      have hrest : freshRun (stepEvent s e).1 es = true := by
        cases e with
        | enq sh tag =>
            have hh : (freshForShape s sh && freshRun (enqueue s sh tag) es) = true := h
            exact (Bool.and_eq_true_iff.mp hh).2
        | reply f => exact h
        | sweep ec => exact h
      have hstep : countPendingTag t (stepEvent s e).1 + countTag t (stepEvent s e).2 =
          countPendingTag t s + countNat t (enqueueTags [e]) := by
        apply step_conservation
        intro sh tag he
        subst he
        have hh : (freshForShape s sh && freshRun (enqueue s sh tag) es) = true := h
        exact (Bool.and_eq_true_iff.mp hh).1
      have hr := ih (stepEvent s e).1 hrest
      have hrun : runEvents s (e :: es) =
          ((runEvents (stepEvent s e).1 es).1,
            (stepEvent s e).2 ++ (runEvents (stepEvent s e).1 es).2) := rfl
      rw [hrun]
      simp only
      rw [countTag_append]
      have htags : countNat t (enqueueTags (e :: es)) =
          countNat t (enqueueTags [e]) + countNat t (enqueueTags es) := by
        cases e with
        | enq sh tag =>
            rw [show enqueueTags (Event.enq sh tag :: es) = tag :: enqueueTags es from rfl,
              countNat_cons,
              show enqueueTags [Event.enq sh tag] = [tag] from rfl,
              countNat_cons, countNat_nil]
            omega
        | reply f =>
            rw [show enqueueTags (Event.reply f :: es) = enqueueTags es from rfl]
            rw [show countNat t (enqueueTags [Event.reply f]) = 0 from rfl]
            omega
        | sweep ec =>
            rw [show enqueueTags (Event.sweep ec :: es) = enqueueTags es from rfl]
            rw [show countNat t (enqueueTags [Event.sweep ec]) = 0 from rfl]
            omega
      rw [htags]
      omega

/-! ## C1 -/

/-- C1 amended: over a session's lifetime (any event trace followed
by the teardown sweep), as long as every enqueue allocates an id not
already pending in its target table — guaranteed until the 32-bit
counter wraps past a still-outstanding request — each registered
handler tag is invoked exactly as often as it was registered: a
handler registered once fires exactly once, with success, a server
error, or the timeout/shutdown sweep, under any arrival order of
replies. -/
theorem C1_exactly_once (es : List Event) (shutdownEc t : Nat)
    (h : freshRun initialState es = true) :
    countTag t (sessionInvocations es shutdownEc) =
      countNat t (enqueueTags es) := by
  have hr := run_conservation es initialState t h
  have h0 : countPendingTag t initialState = 0 := rfl
  have hsw : countTag t (clear_outstanding_requests
      (runEvents initialState es).1 shutdownEc).2 =
      countPendingTag t (runEvents initialState es).1 :=
    countTag_sweepInvocations t (runEvents initialState es).1 shutdownEc
  unfold sessionInvocations
  rw [countTag_append]
  omega

/-- C1 witness: a trace with two enqueues (tags 5 and 6), a matching
reply for the height request, and an explicit timeout sweep; both
handlers fire exactly once, the never-registered tag 7 never fires. -/
theorem C1_exactly_once_witness :
    freshRun initialState
      [ Event.enq Shape.result 5, Event.enq Shape.height 6
      , Event.sweep 13 ] = true ∧
    countTag 5 (sessionInvocations
      [ Event.enq Shape.result 5, Event.enq Shape.height 6
      , Event.sweep 13 ] 99) =
      countNat 5 (enqueueTags
        [ Event.enq Shape.result 5, Event.enq Shape.height 6
        , Event.sweep 13 ]) ∧
    countTag 6 (sessionInvocations
      [ Event.enq Shape.result 5, Event.enq Shape.height 6
      , Event.sweep 13 ] 99) =
      countNat 6 (enqueueTags
        [ Event.enq Shape.result 5, Event.enq Shape.height 6
        , Event.sweep 13 ]) ∧
    countTag 7 (sessionInvocations
      [ Event.enq Shape.result 5, Event.enq Shape.height 6
      , Event.sweep 13 ] 99) =
      countNat 7 (enqueueTags
        [ Event.enq Shape.result 5, Event.enq Shape.height 6
        , Event.sweep 13 ]) :=
  ⟨by decide,
    C1_exactly_once _ 99 5 (by decide),
    C1_exactly_once _ 99 6 (by decide),
    C1_exactly_once _ 99 7 (by decide)⟩

theorem runEvents_append (s : ClientState) (l1 l2 : List Event) :
    runEvents s (l1 ++ l2) =
      ((runEvents (runEvents s l1).1 l2).1,
        (runEvents s l1).2 ++ (runEvents (runEvents s l1).1 l2).2) := by
  induction l1 generalizing s with
  | nil => simp [runEvents]
  | cons e l1 ih =>
      have h1 : runEvents s ((e :: l1) ++ l2) =
          ((runEvents (stepEvent s e).1 (l1 ++ l2)).1,
            (stepEvent s e).2 ++ (runEvents (stepEvent s e).1 (l1 ++ l2)).2) := rfl
      have h2 : runEvents s (e :: l1) =
          ((runEvents (stepEvent s e).1 l1).1,
            (stepEvent s e).2 ++ (runEvents (stepEvent s e).1 l1).2) := rfl
      rw [h1, h2, ih (stepEvent s e).1]
      simp [List.append_assoc]

theorem mod_idModulus_inj (a b : Nat) (ha0 : 0 < a) (ha : a ≤ idModulus)
    (hb0 : 0 < b) (hb : b ≤ idModulus)
    (h : a % idModulus = b % idModulus) : a = b := by
  have hM : (4294967296 : Nat) = idModulus := rfl
  rw [← hM] at ha hb h
  omega

theorem mapKeys_resultTableAfter (n : Nat) :
    mapKeys (resultTableAfter n) =
      (List.range n).map (fun j => (j + 1) % idModulus) := by
  simp [mapKeys, resultTableAfter, List.map_map, Function.comp_def]

theorem fresh_resultTableAfter (n : Nat) (hn : n + 1 ≤ idModulus) :
    (n + 1) % idModulus ∉ mapKeys (resultTableAfter n) := by
  rw [mapKeys_resultTableAfter]
  intro hmem
  simp only [List.mem_map, List.mem_range] at hmem
  obtain ⟨j, hj, heq⟩ := hmem
  have := mod_idModulus_inj (j + 1) (n + 1) (Nat.succ_pos j) (by omega)
    (Nat.succ_pos n) hn heq
  omega

theorem runWrap_char (n : Nat) (hn : n ≤ idModulus) :
    runEvents initialState (wrapTrace n) =
      (⟨n % idModulus, ⟨resultTableAfter n, [], [], [], [], [], [], [], []⟩⟩, []) := by
  induction n with
  | zero => decide
  | succ n ih =>
      have hn' : n ≤ idModulus := Nat.le_of_succ_le hn
      have hw : wrapTrace (n + 1) = wrapTrace n ++ [Event.enq Shape.result n] := by
        unfold wrapTrace
        rw [List.range_succ, List.map_append]
        rfl
      rw [hw, runEvents_append, ih hn']
      have hstep : runEvents
          (⟨n % idModulus, ⟨resultTableAfter n, [], [], [], [], [], [], [], []⟩⟩ : ClientState)
          [Event.enq Shape.result n] =
          (enqueue ⟨n % idModulus, ⟨resultTableAfter n, [], [], [], [], [], [], [], []⟩⟩
            Shape.result n, []) := rfl
      rw [hstep]
      have hid : next_request_index
          ⟨n % idModulus, ⟨resultTableAfter n, [], [], [], [], [], [], [], []⟩⟩ =
          (n + 1) % idModulus := by
        show (n % idModulus + 1) % idModulus = (n + 1) % idModulus
        exact Nat.mod_add_mod n idModulus 1
      have hins : mapInsert ((n + 1) % idModulus) n (resultTableAfter n) =
          resultTableAfter (n + 1) := by
        rw [mapInsert_of_not_mem _ _ _ (fresh_resultTableAfter n hn)]
        unfold resultTableAfter
        rw [List.range_succ, List.map_append]
        rfl
      unfold enqueue
      rw [hid]
      simp only [PendingTables.get, PendingTables.set]
      rw [hins]
      rfl

theorem resultTableAfter_full_decomp :
    resultTableAfter idModulus =
      (1, 0) :: (List.range (idModulus - 1)).map
        (fun j => ((j + 1 + 1) % idModulus, j + 1)) := by
  have h1 : idModulus = (idModulus - 1) + 1 := by decide
  unfold resultTableAfter
  rw [show List.range idModulus = List.range ((idModulus - 1) + 1) from by rw [← h1]]
  rw [List.range_succ_eq_map, List.map_cons, List.map_map]
  have h2 : ((0 : Nat) + 1) % idModulus = 1 := by decide
  rw [h2]
  refine congrArg (List.cons _) ?_
  exact List.map_congr_left (fun a ha => rfl)


theorem enqueue_wrap_step (T : List (Nat × Nat)) :
    enqueue ⟨idModulus % idModulus, ⟨T, [], [], [], [], [], [], [], []⟩⟩
        Shape.result idModulus =
      ⟨1, ⟨mapInsert 1 idModulus T, [], [], [], [], [], [], [], []⟩⟩ := by
  have hid : next_request_index
      ⟨idModulus % idModulus, ⟨T, [], [], [], [], [], [], [], []⟩⟩ = 1 := by
    show (idModulus % idModulus + 1) % idModulus = 1
    rw [Nat.mod_self]
    decide
  unfold enqueue
  rw [hid]
  rfl

theorem wrapFullState :
    runEvents initialState (wrapTrace (idModulus + 1)) =
      (⟨1, ⟨(1, idModulus) :: (List.range (idModulus - 1)).map
          (fun j => ((j + 1 + 1) % idModulus, j + 1)), [], [], [], [], [], [], [], []⟩⟩, []) := by
  have hw : wrapTrace (idModulus + 1) =
      wrapTrace idModulus ++ [Event.enq Shape.result idModulus] := by
    unfold wrapTrace
    rw [List.range_succ, List.map_append]
    rfl
  rw [hw, runEvents_append, runWrap_char idModulus (Nat.le_refl _)]
  have hstep : runEvents
      (⟨idModulus % idModulus,
        ⟨resultTableAfter idModulus, [], [], [], [], [], [], [], []⟩⟩ : ClientState)
      [Event.enq Shape.result idModulus] =
      (enqueue ⟨idModulus % idModulus,
        ⟨resultTableAfter idModulus, [], [], [], [], [], [], [], []⟩⟩
        Shape.result idModulus, []) := rfl
  rw [hstep, enqueue_wrap_step (resultTableAfter idModulus), resultTableAfter_full_decomp]
  have hins : mapInsert 1 idModulus
      ((1, 0) :: (List.range (idModulus - 1)).map
        (fun j => ((j + 1 + 1) % idModulus, j + 1))) =
      (1, idModulus) :: (List.range (idModulus - 1)).map
        (fun j => ((j + 1 + 1) % idModulus, j + 1)) := rfl
  rw [hins]
  rfl

theorem countPendingTag_result_only (t i : Nat) (T : List (Nat × Nat)) :
    countPendingTag t ⟨i, ⟨T, [], [], [], [], [], [], [], []⟩⟩ =
      T.countP (fun e => e.2 == t) := by
  unfold countPendingTag
  simp [allShapes, PendingTables.get]

theorem enqueueTags_map_enq (sh : Shape) (l : List Nat) :
    enqueueTags (l.map (fun i => Event.enq sh i)) = l := by
  induction l with
  | nil => rfl
  | cons a l ih =>
      simp only [List.map_cons, enqueueTags, ih]

